import Mathlib

/-!
# Verification of `expression_checker.py`

A shallow embedding of the algorithmic core of `expression_checker.py`
(expression preprocessing, sampling, set-membership classification, parity
decomposition, primality gating and divisor enumeration), together with
theorems settling the specification's claims.

Modelling conventions:
* Python numeric results (floats produced by `float(expr.subs(...))`) are
  modelled as rationals `ℚ`; `result == int(result)` becomes `r.den = 1`.
* Python `%` and `//` on `int` are floor-division operators; they are
  modelled by `Int.fmod` and `Int.fdiv`, which have the same semantics.
* `int(math.sqrt(n))` is modelled as the exact floor square root
  `Nat.sqrt`, which is what the float computation produces on the
  program's ranges.
-/

/-- The set choice made at startup: `N` or `N*` (source: `main`, step 1). -/
inductive SetChoice where
  | N
  | Nstar
deriving DecidableEq

/-- Python `a % b` on integers (floor-division remainder). -/
def pyMod (a b : Int) : Int := Int.fmod a b

/-- Python `a // b` on integers (floor division). -/
def pyFloorDiv (a b : Int) : Int := Int.fdiv a b

/-- `min_val = 1 if set_choice == 'N*' else 0`
(source: `analyze_expression` line 252, `test_specific_values` line 366). -/
def minVal : SetChoice → Int
  | .Nstar => 1
  | .N => 0

/-- Python `range(a, b)` over integers: `[a, a+1, ..., b-1]`. -/
def pyRange (a b : Int) : List Int :=
  (List.range (b - a).toNat).map (fun k => a + (k : Int))

/-- The sampled values of the primary variable:
`range(min_val, min_val + 10)` (source: `analyze_expression` line 258,
`analyze_parity` line 299). -/
def sampleVals (c : SetChoice) : List Int :=
  pyRange (minVal c) (minVal c + 10)

/-- Set-membership classification used for the sampled results in
`analyze_expression` (lines 263-276): the `✅`/`❌` mark tests only the sign
of the result (`result >= 0` for `N`, `result > 0` for `N*`). -/
def sample_belongs (c : SetChoice) (r : ℚ) : Bool :=
  match c with
  | .N => decide (0 ≤ r)
  | .Nstar => decide (0 < r)

/-- Set-membership classification used in `test_specific_values`
(lines 401-407) and `analyze_constant` (lines 180-185):
`belongs = result >= 0 and (isinstance(result, int) or result == int(result))`
for `N`, and with `result > 0` for `N*`. -/
def tested_belongs (c : SetChoice) (r : ℚ) : Bool :=
  match c with
  | .N => decide (0 ≤ r) && decide (r.den = 1)
  | .Nstar => decide (0 < r) && decide (r.den = 1)

/-- Parity decomposition of an integer result, shared by
`analyze_constant` (lines 198-203), `analyze_parity` (lines 305-316) and
`test_specific_values` (lines 412-419): if `r % 2 == 0` the result is even
with `K = r // 2`, otherwise odd with `K = (r - 1) // 2`.
Returns `(is_even, K)`. -/
def parity_k (r : Int) : Bool × Int :=
  if pyMod r 2 = 0 then (true, pyFloorDiv r 2)
  else (false, pyFloorDiv (r - 1) 2)

/-- `sympy.isprime`, restricted to the integer inputs the program feeds it:
true exactly on integers `> 1` that are prime. -/
def isprime (n : Int) : Bool :=
  decide (1 < n) && decide (Nat.Prime n.toNat)

/-- What `analyze_parity` reports for one sampled result. -/
structure SampleReport where
  /-- `result == int(result)` held. -/
  isInt : Bool
  /-- `some is_even` when the result is integral, else `none`. -/
  evenness : Option Bool
  /-- `some K` (the reported parity coefficient) when integral, else `none`. -/
  kValue : Option Int
  /-- `some (isprime r)` when the primality test ran, else `none`. -/
  primeTest : Option Bool
deriving DecidableEq

/-- The per-value body of the loop in `analyze_parity` (lines 299-327):
for an integral result compute parity and `K` (lines 305-316), and run the
primality test exactly when `int(result) > 1 and int(result) <= 1000`
(line 321); a non-integral result gets no parity and no primality test. -/
def analyzeResult (r : ℚ) : SampleReport :=
  if r.den = 1 then
    let ri := r.num
    let p := parity_k ri
    { isInt := true
      evenness := some p.1
      kValue := some p.2
      primeTest := if 1 < ri ∧ ri ≤ 1000 then some (isprime ri) else none }
  else
    { isInt := false, evenness := none, kValue := none, primeTest := none }

/-- The sampling loop of `analyze_parity`: evaluate the expression at each
sampled value and classify the result. -/
def sampleAnalysis (f : Int → ℚ) (c : SetChoice) : List (Int × SampleReport) :=
  (sampleVals c).map (fun v => (v, analyzeResult (f v)))

/-- The expression obtained from the input `n²`: after preprocessing it is
`n**2`, which sympy parses as the squaring function. -/
def exprSquare (n : Int) : ℚ := ((n * n : Int) : ℚ)

/-- The trial-division loop of `get_divisors` (lines 451-457), for a
positive argument given as a natural number: for each
`i in range(1, int(math.sqrt(n)) + 1)` with `n % i == 0`, append `i` and,
when `i != n // i`, also `n // i`. -/
def get_divisorsNat (n : Nat) : List Nat :=
  (List.range' 1 (Nat.sqrt n)).flatMap fun i =>
    if n % i = 0 then (if i ≠ n / i then [i, n / i] else [i]) else []

/-- `get_divisors` (lines 446-457): a non-positive argument returns `[]`
(line 448); a positive one runs the trial-division loop. -/
def get_divisors (n : Int) : List Int :=
  if n ≤ 0 then []
  else (get_divisorsNat n.toNat).map (fun d : Nat => (d : Int))

/-- The character class `[a-zA-Z]` of the regexes in
`preprocess_expression`. -/
def isAsciiLetter (c : Char) : Bool :=
  (97 ≤ c.toNat && c.toNat ≤ 122) || (65 ≤ c.toNat && c.toNat ≤ 90)

/-- The character class `\d` of the regexes in `preprocess_expression`
(on the program's ASCII inputs: `[0-9]`). -/
def isAsciiDigit (c : Char) : Bool :=
  48 ≤ c.toNat && c.toNat ≤ 57

/-- `re.sub` for a pattern of two single-character classes with the
replacement inserting `*` between the matched characters (all five
substitutions in `preprocess_expression`, lines 85-94, have this shape).
Matches are found left to right and do not overlap: after a match the scan
resumes past the two consumed characters. -/
def sub2 (p q : Char → Bool) : List Char → List Char
  | c1 :: c2 :: rest =>
    if p c1 && q c2 then c1 :: '*' :: c2 :: sub2 p q rest
    else c1 :: sub2 p q (c2 :: rest)
  | l => l

/-- `expression_input.replace('²', '**2')` (line 81). -/
def squareSub : List Char → List Char
  | [] => []
  | c :: rest => (if c = '²' then ['*', '*', '2'] else [c]) ++ squareSub rest

/-- `preprocess_expression` (lines 76-96), on the character list of the
input: replace `²` by `**2`, then apply the five `re.sub` passes in source
order: digit-letter, letter-digit, letter-`(`, `)`-letter, letter-letter. -/
def preprocess_expression (s : List Char) : List Char :=
  sub2 isAsciiLetter isAsciiLetter
    (sub2 (fun c => c = ')') isAsciiLetter
      (sub2 isAsciiLetter (fun c => c = '(')
        (sub2 isAsciiLetter isAsciiDigit
          (sub2 isAsciiDigit isAsciiLetter
            (squareSub s)))))

/-- The translation table loaded from `translations.json`; its contents
are irrelevant to the startup claims, only whether it loaded. -/
def Translations : Type := List (String × List (String × String))

/-- The three outcomes of opening and parsing `translations.json`:
the file is absent (`FileNotFoundError`), present but not valid JSON
(`JSONDecodeError`), or parses to a table. -/
inductive FileRead where
  | missing
  | malformed (msg : String)
  | ok (t : Translations)

/-- `load_translations` (lines 30-48): return the parsed table, or print an
error and `sys.exit(1)` when the file is missing or malformed. `sys.exit(1)`
is modelled as `Except.error 1` (the process exit status). -/
def load_translations : FileRead → Except Nat Translations
  | .missing => .error 1
  | .malformed _ => .error 1
  | .ok t => .ok t

/-- The startup sequence of `main` (lines 459-462): `load_translations` runs
first, and everything else — including every analysis — runs only on its
returned table. -/
def mainStartup {α : Type} (file : FileRead) (analysis : Translations → α) :
    Except Nat α :=
  (load_translations file).map analysis

/-! ## Helper lemmas about the trial-division loop -/

/-- The list a single loop iteration of `get_divisors` contributes. -/
def divBlock (n i : Nat) : List Nat :=
  if n % i = 0 then (if i ≠ n / i then [i, n / i] else [i]) else []

theorem get_divisorsNat_eq_flatMap (n : Nat) :
    get_divisorsNat n = (List.range' 1 (Nat.sqrt n)).flatMap (divBlock n) := rfl

theorem mem_divBlock {n i x : Nat} :
    x ∈ divBlock n i ↔ n % i = 0 ∧ (x = i ∨ x = n / i) := by
  unfold divBlock
  split_ifs with h1 h2
  · simp [h1]
  · have heq : i = n / i := not_not.mp h2
    simp [h1, ← heq]
  · simp [h1]

theorem sqrt_lt_of_div_lt {n d : Nat} (hdvd : d ∣ n)
    (hgt : Nat.sqrt n < d) : n / d ≤ Nat.sqrt n := by
  by_contra hc
  push_neg at hc
  have h1 : Nat.sqrt n + 1 ≤ n / d := hc
  have h2 : Nat.sqrt n + 1 ≤ d := hgt
  have heq : n / d * d = n := Nat.div_mul_cancel hdvd
  have hmul : (Nat.sqrt n + 1) * (Nat.sqrt n + 1) ≤ n / d * d :=
    Nat.mul_le_mul h1 h2
  have hlt : n < (Nat.sqrt n + 1) * (Nat.sqrt n + 1) := by
    simpa [Nat.succ_eq_add_one] using Nat.lt_succ_sqrt n
  omega

theorem mem_get_divisorsNat {n d : Nat} (hn : 0 < n) :
    d ∈ get_divisorsNat n ↔ d ∣ n := by
  rw [get_divisorsNat_eq_flatMap]
  simp only [List.mem_flatMap, List.mem_range', mem_divBlock]
  constructor
  · rintro ⟨i, ⟨j, hj, hij⟩, hmod, hd⟩
    have hidvd : i ∣ n := Nat.dvd_of_mod_eq_zero hmod
    rcases hd with rfl | rfl
    · exact hidvd
    · exact Nat.div_dvd_of_dvd hidvd
  · intro hdvd
    have hd0 : 0 < d := Nat.pos_of_dvd_of_pos hdvd hn
    have hmodd : n % d = 0 := Nat.mod_eq_zero_of_dvd hdvd
    by_cases hle : d ≤ Nat.sqrt n
    · exact ⟨d, ⟨d - 1, by omega, by omega⟩, hmodd, Or.inl rfl⟩
    · push_neg at hle
      have hidvd : n / d ∣ n := Nat.div_dvd_of_dvd hdvd
      have hdn : d ≤ n := Nat.le_of_dvd hn hdvd
      have hi1 : 1 ≤ n / d := (Nat.le_div_iff_mul_le hd0).mpr (by omega)
      have hisqrt : n / d ≤ Nat.sqrt n := sqrt_lt_of_div_lt hdvd hle
      have hmodi : n % (n / d) = 0 := Nat.mod_eq_zero_of_dvd hidvd
      have hdiv : n / (n / d) = d := Nat.div_div_self hdvd (by omega)
      exact ⟨n / d, ⟨n / d - 1, by omega, by omega⟩, hmodi, Or.inr (by omega)⟩

theorem get_divisorsNat_nodup (n : Nat) : (get_divisorsNat n).Nodup := by
  rw [get_divisorsNat_eq_flatMap, List.nodup_flatMap]
  constructor
  · intro i _
    unfold divBlock
    split_ifs with h1 h2
    · simp [h2]
    · exact List.nodup_singleton i
    · exact List.nodup_nil
  · have hp := List.pairwise_lt_range' 1 (Nat.sqrt n) 1 (by norm_num)
    refine hp.imp_of_mem ?_
    intro a b ha hb hab
    simp only [List.mem_range'] at ha hb
    obtain ⟨ja, hja, haj⟩ := ha
    obtain ⟨jb, hjb, hbj⟩ := hb
    have ha1 : 1 ≤ a := by omega
    have has : a ≤ Nat.sqrt n := by omega
    have hb1 : 1 ≤ b := by omega
    have hbs : b ≤ Nat.sqrt n := by omega
    have hn : 0 < n := Nat.sqrt_pos.mp (by omega)
    intro x hx hy
    rw [mem_divBlock] at hx hy
    obtain ⟨hma, hxa⟩ := hx
    obtain ⟨hmb, hxb⟩ := hy
    have hadvd : a ∣ n := Nat.dvd_of_mod_eq_zero hma
    have hbdvd : b ∣ n := Nat.dvd_of_mod_eq_zero hmb
    have hble : b ≤ n / b := by
      rw [Nat.le_div_iff_mul_le (by omega)]
      have : b * b ≤ n := Nat.le_sqrt.mp hbs
      omega
    rcases hxa with rfl | rfl
    · rcases hxb with h | h
      · omega
      · omega
    · rcases hxb with h | h
      · -- n / a = b, but b ≤ sqrt n forces b ≤ a, contradicting a < b
        have hna : n = a * (n / a) := (Nat.mul_div_cancel' hadvd).symm
        have hbb : b * b ≤ n := Nat.le_sqrt.mp hbs
        rw [h] at hna
        have hprod : b * b ≤ a * b := by omega
        have hba : b ≤ a := Nat.le_of_mul_le_mul_right hprod (by omega)
        omega
      · -- n / a = n / b forces a = b
        have h1 : n / (n / a) = a := Nat.div_div_self hadvd (by omega)
        have h2 : n / (n / b) = b := Nat.div_div_self hbdvd (by omega)
        rw [h] at h1
        omega



/-! ## Claim theorems -/

/-- C1 (counterexample): in `analyze_expression` the sampled result `1/2`
under set `N` — produced e.g. by the expression `n/2` at `n = 1` — is
marked `✅` as belonging to `N` (the mark tests only `result >= 0`), even
though `1/2` is not integral.  This refutes the claim that every sampled
result is classified as belonging to `N` only if it is integral. -/
theorem sampled_membership_cex :
    sample_belongs SetChoice.N (mkRat 1 2) = true ∧ ¬ (mkRat 1 2).den = 1 := by
  decide

/-- C1 (amended): results tested in `test_specific_values` and constants in
`analyze_constant` are classified as belonging to `N` iff they are `≥ 0`
and integral, and to `N*` iff `> 0` and integral; the sampled results in
`analyze_expression` are classified by sign alone (`≥ 0` for `N`, `> 0`
for `N*`), with no integrality requirement. -/
theorem membership_classification (r : ℚ) :
    (tested_belongs SetChoice.N r = true ↔ 0 ≤ r ∧ r.den = 1)
  ∧ (tested_belongs SetChoice.Nstar r = true ↔ 0 < r ∧ r.den = 1)
  ∧ (sample_belongs SetChoice.N r = true ↔ 0 ≤ r)
  ∧ (sample_belongs SetChoice.Nstar r = true ↔ 0 < r) := by
  simp [tested_belongs, sample_belongs]

/-- C2: for `n > 0`, the elements of `get_divisors n` are exactly the
positive `d` with `n % d == 0`: every returned element is a divisor, and
every divisor is found by the paired trial division up to `⌊√n⌋`. -/
theorem get_divisors_correct (n : Int) (hn : 0 < n) (d : Int) :
    d ∈ get_divisors n ↔ 0 < d ∧ n % d = 0 := by
  unfold get_divisors
  rw [if_neg (by omega)]
  simp only [List.mem_map]
  have hntn : (n.toNat : Int) = n := Int.toNat_of_nonneg (by omega)
  have htn : 0 < n.toNat := by omega
  constructor
  · rintro ⟨e, he, rfl⟩
    rw [mem_get_divisorsNat htn] at he
    have he0 : 0 < e := Nat.pos_of_dvd_of_pos he htn
    have hdvd : (e : Int) ∣ n := by
      rw [← hntn]
      exact_mod_cast he
    exact ⟨by exact_mod_cast he0, Int.emod_eq_zero_of_dvd hdvd⟩
  · rintro ⟨hd0, hmod⟩
    have hdvd : d ∣ n := Int.dvd_of_emod_eq_zero hmod
    refine ⟨d.toNat, ?_, Int.toNat_of_nonneg (by omega)⟩
    rw [mem_get_divisorsNat htn]
    have hcast : (d.toNat : Int) ∣ (n.toNat : Int) := by
      rw [hntn, Int.toNat_of_nonneg (show (0:Int) ≤ d by omega)]
      exact hdvd
    exact_mod_cast hcast

/-- Witness for C2 at `n = 12`, `d = 3`. -/
theorem get_divisors_correct_witness :
    0 < (12 : Int) ∧ ((3 : Int) ∈ get_divisors 12 ↔ 0 < (3 : Int) ∧ (12 : Int) % 3 = 0) :=
  ⟨by decide, get_divisors_correct 12 (by decide) 3⟩

/-- C3: for every integer result `r`, the reported coefficient `K`
satisfies `r = 2*K` when `r` is classified even and `r = 2*K + 1` when
classified odd, and the classification agrees with true parity; this holds
for negative `r` as well, because Python `%` and `//` round toward
negative infinity. -/
theorem parity_decomposition (r : Int) :
    r = 2 * (parity_k r).2 + (if (parity_k r).1 = true then 0 else 1)
  ∧ ((parity_k r).1 = true ↔ r % 2 = 0) := by
  have h2 : (0 : Int) ≤ 2 := by norm_num
  unfold parity_k pyMod pyFloorDiv
  rw [Int.fmod_eq_emod r h2, Int.fdiv_eq_ediv r h2, Int.fdiv_eq_ediv (r - 1) h2]
  by_cases h : r % 2 = 0 <;> simp [h] <;> omega

/-- C4: the sampling loop evaluates the expression at exactly the 10
consecutive integers starting at `min_val`, which is `0` for `N` and `1`
for `N*`. -/
theorem sampling_window :
    sampleVals SetChoice.N = [0, 1, 2, 3, 4, 5, 6, 7, 8, 9]
  ∧ sampleVals SetChoice.Nstar = [1, 2, 3, 4, 5, 6, 7, 8, 9, 10]
  ∧ minVal SetChoice.N = 0 ∧ minVal SetChoice.Nstar = 1 := by
  decide

/-- C6: `analyze_parity` runs the primality test on a sampled result
exactly when the result is integral, greater than `1` and at most `1000`. -/
theorem primality_test_range (r : ℚ) :
    ((analyzeResult r).primeTest).isSome = true ↔
      r.den = 1 ∧ 1 < r.num ∧ r.num ≤ 1000 := by
  unfold analyzeResult
  by_cases h : r.den = 1
  · by_cases h2 : 1 < r.num ∧ r.num ≤ 1000 <;> simp [h, h2]
  · simp [h]

/-- C8: when `translations.json` is missing or malformed, startup exits
with status 1 (modelled as `Except.error 1`) and the analysis continuation
is never reached. -/
theorem translation_failure_exits {α : Type} (msg : String)
    (analysis : Translations → α) :
    load_translations FileRead.missing = Except.error 1
  ∧ load_translations (FileRead.malformed msg) = Except.error 1
  ∧ mainStartup FileRead.missing analysis = Except.error 1
  ∧ mainStartup (FileRead.malformed msg) analysis = Except.error 1 := by
  simp [load_translations, mainStartup, Except.map]

/-- C9: for `n > 0` the divisor list contains no duplicates; in
particular for perfect squares the square root is added only once. -/
theorem get_divisors_nodup (n : Int) (hn : 0 < n) :
    (get_divisors n).Nodup := by
  unfold get_divisors
  rw [if_neg (by omega)]
  exact (get_divisorsNat_nodup n.toNat).map (fun a b h => by exact_mod_cast h)

/-- Witness for C9 at the perfect square `n = 36`. -/
theorem get_divisors_nodup_witness :
    0 < (36 : Int) ∧ (get_divisors 36).Nodup :=
  ⟨by decide, get_divisors_nodup 36 (by decide)⟩

/-- C10: `get_divisors` is total and returns `[]` on every non-positive
argument. -/
theorem get_divisors_nonpos (n : Int) (hn : n ≤ 0) : get_divisors n = [] := by
  unfold get_divisors
  rw [if_pos hn]

/-- Witness for C10 at `n = -5`. -/
theorem get_divisors_nonpos_witness :
    (-5 : Int) ≤ 0 ∧ get_divisors (-5) = [] :=
  ⟨by decide, get_divisors_nonpos (-5) (by decide)⟩

theorem letter_char_facts {c : Char} (h : isAsciiLetter c = true) :
    isAsciiDigit c = false ∧ ¬ c = '²' ∧ ¬ c = '(' ∧ ¬ c = ')' := by
  have hh := h
  unfold isAsciiLetter at hh
  simp only [Bool.or_eq_true, Bool.and_eq_true, decide_eq_true_eq] at hh
  refine ⟨?_, ?_, ?_, ?_⟩
  · cases hdig : isAsciiDigit c
    · rfl
    · exfalso
      unfold isAsciiDigit at hdig
      simp only [Bool.and_eq_true, decide_eq_true_eq] at hdig
      omega
  · rintro rfl
    revert hh
    decide
  · rintro rfl
    revert hh
    decide
  · rintro rfl
    revert hh
    decide

theorem digit_char_facts {c : Char} (h : isAsciiDigit c = true) :
    isAsciiLetter c = false ∧ ¬ c = '²' ∧ ¬ c = '(' ∧ ¬ c = ')' := by
  have hh := h
  unfold isAsciiDigit at hh
  simp only [Bool.and_eq_true, decide_eq_true_eq] at hh
  refine ⟨?_, ?_, ?_, ?_⟩
  · cases hlet : isAsciiLetter c
    · rfl
    · exfalso
      unfold isAsciiLetter at hlet
      simp only [Bool.or_eq_true, Bool.and_eq_true, decide_eq_true_eq] at hlet
      omega
  · rintro rfl
    revert hh
    decide
  · rintro rfl
    revert hh
    decide
  · rintro rfl
    revert hh
    decide

/-- C5 (counterexample): the letter-letter substitution consumes its
matches, so the run `abc` is rewritten to `a*bc`, not to the fully
separated `a*b*c` the claim states. -/
theorem preprocess_letters_cex :
    preprocess_expression "abc".toList = "a*bc".toList
  ∧ ¬ preprocess_expression "abc".toList = "a*b*c".toList := by
  decide

/-- C5 (amended): preprocessing replaces `²` with `**2` and inserts `*`
between a digit and a following letter, a letter and a following digit,
a letter and `(`, `)` and a letter, and each pair of adjacent letters
matched left to right without overlap — so in a run of three letters only
the first boundary is split (`abc` becomes `a*bc`, not `a*b*c`). -/
theorem preprocess_insertion (d a b c : Char) (hd : isAsciiDigit d = true)
    (ha : isAsciiLetter a = true) (hb : isAsciiLetter b = true)
    (hc : isAsciiLetter c = true) :
    preprocess_expression [d, a] = [d, '*', a]
  ∧ preprocess_expression [a, d] = [a, '*', d]
  ∧ preprocess_expression [a, '('] = [a, '*', '(']
  ∧ preprocess_expression [')', a] = [')', '*', a]
  ∧ preprocess_expression [a, b] = [a, '*', b]
  ∧ preprocess_expression [a, b, c] = [a, '*', b, c]
  ∧ preprocess_expression ['²'] = ['*', '*', '2'] := by
  obtain ⟨hd1, hd2, hd3, hd4⟩ := digit_char_facts hd
  obtain ⟨ha1, ha2, ha3, ha4⟩ := letter_char_facts ha
  obtain ⟨hb1, hb2, hb3, hb4⟩ := letter_char_facts hb
  obtain ⟨hc1, hc2, hc3, hc4⟩ := letter_char_facts hc
  have hs1 : isAsciiLetter '*' = false := by decide
  have hs2 : isAsciiDigit '*' = false := by decide
  have hs3 : ¬ ('*' : Char) = ')' := by decide
  have hs4 : ¬ ('*' : Char) = '²' := by decide
  have hp1 : isAsciiLetter '(' = false := by decide
  have hp2 : isAsciiDigit '(' = false := by decide
  have hp3 : ¬ ('(' : Char) = '²' := by decide
  have hp4 : ¬ (')' : Char) = '²' := by decide
  have hp5 : isAsciiLetter ')' = false := by decide
  have hp6 : isAsciiDigit ')' = false := by decide
  have hp7 : ¬ ('(' : Char) = ')' := by decide
  refine ⟨?_, ?_, ?_, ?_, ?_, ?_, by decide⟩ <;>
    simp [preprocess_expression, squareSub, sub2, hd, ha, hb, hc,
      hd1, hd2, hd3, hd4, ha1, ha2, ha3, ha4, hb1, hb2, hb3, hb4,
      hc1, hc2, hc3, hc4, hs1, hs2, hs3, hs4, hp1, hp2, hp3, hp4,
      hp5, hp6, hp7]

/-- Witness for C5 (amended) at `d = '2'`, `a b c = 'a' 'b' 'c'`. -/
theorem preprocess_insertion_witness :
    preprocess_expression ['2', 'a'] = ['2', '*', 'a']
  ∧ preprocess_expression ['a', '2'] = ['a', '*', '2']
  ∧ preprocess_expression ['a', '('] = ['a', '*', '(']
  ∧ preprocess_expression [')', 'a'] = [')', '*', 'a']
  ∧ preprocess_expression ['a', 'b'] = ['a', '*', 'b']
  ∧ preprocess_expression ['a', 'b', 'c'] = ['a', '*', 'b', 'c']
  ∧ preprocess_expression ['²'] = ['*', '*', '2'] :=
  preprocess_insertion '2' 'a' 'b' 'c' (by decide) (by decide) (by decide)
    (by decide)

/-- C7: the input `n²` preprocesses to `n**2`; sampling `n = 0..9` under
`N` yields `0, 1, 4, 9, 16, 25, 36, 49, 64, 81`, each classified with the
correct parity and reported `K` (`0` even `K=0`, `1` odd `K=0`, `4` even
`K=2`, `9` odd `K=4`, and so on). -/
theorem square_sampling_example :
    preprocess_expression "n²".toList = "n**2".toList
  ∧ (sampleVals SetChoice.N).map exprSquare =
      [0, 1, 4, 9, 16, 25, 36, 49, 64, 81]
  ∧ (sampleVals SetChoice.N).map
      (fun v => ((analyzeResult (exprSquare v)).evenness,
                 (analyzeResult (exprSquare v)).kValue)) =
      [(some true, some 0), (some false, some 0), (some true, some 2),
       (some false, some 4), (some true, some 8), (some false, some 12),
       (some true, some 18), (some false, some 24), (some true, some 32),
       (some false, some 40)] := by
  decide
